import Mathlib

/-!
# A shallow embedding of the TGA decoder (`src/tga/decoder.rs`)

Bytes are modelled as `Nat` values; every read reduces the stored value
mod 256 so that the stream behaves as a source of `u8` values.  Fallible
reads return `Except ImgError`; panics of the original code (slice
indexing out of bounds, `unreachable!`, `unimplemented!`, zero-sized
chunking) are modelled by the dedicated error value `ImgError.panicked`,
kept distinct from the `ImageError` values the original returns.
-/

namespace TGA

/-- Errors of the embedded decoder: the original's
`ImageError::UnsupportedError(String)`, its propagated I/O failures
(short reads), and a marker for panics of the original code. -/
inductive ImgError where
  | unsupported (msg : String)
  | ioError
  | panicked
deriving DecidableEq, Repr

/-- Holds exactly on `UnsupportedError` results. -/
def isUnsupported {α : Type} : Except ImgError α → Bool
  | .error (.unsupported _) => true
  | _ => false

/-- A positioned byte source: the underlying data and the read cursor.
Models the `Reader + Seek` bound of the original decoder. -/
structure Stream where
  data : List Nat
  pos : Nat
deriving DecidableEq, Repr

/-- Number of bytes between the cursor and the end of the data. -/
def Stream.remaining (s : Stream) : Nat := s.data.length - s.pos

/-- Model of `Reader::read_u8`: one byte at the cursor, or an I/O error at
end of data. -/
def read_u8 (s : Stream) : Except ImgError (Nat × Stream) :=
  match s.data[s.pos]? with
  | some b => .ok (b % 256, ⟨s.data, s.pos + 1⟩)
  | none => .error .ioError

/-- Model of `Reader::read_le_u16`: two bytes, least significant first. -/
def read_le_u16 (s : Stream) : Except ImgError (Nat × Stream) := do
  let (b0, s) ← read_u8 s
  let (b1, s) ← read_u8 s
  return (b0 + 256 * b1, s)

/-- Model of `Reader::read_exact n`: the next `n` bytes, or an I/O error if
fewer are available. -/
def read_exact (n : Nat) (s : Stream) : Except ImgError (List Nat × Stream) :=
  if s.pos + n ≤ s.data.length then
    .ok (((s.data.drop s.pos).take n).map (· % 256), ⟨s.data, s.pos + n⟩)
  else .error .ioError

/-- Model of `Seek::seek(n, SeekCur)` with a non-negative offset: advances the
cursor; seeking past the end of data is not an error. -/
def seek_forward (n : Nat) (s : Stream) : Stream := ⟨s.data, s.pos + n⟩

/-- The `ImageType` enumeration of the decoder. -/
inductive ImageType where
  | NoImageData
  | RawColorMap
  | RawTrueColor
  | RawGreyScale
  | RunColorMap
  | RunTrueColor
  | RunGreyScale
  | Unknown
deriving DecidableEq, Repr

/-- Model of `ImageType::new`: classify a raw image-type byte. -/
def ImageType.new (img_type : Nat) : ImageType :=
  match img_type with
  | 0 => .NoImageData
  | 1 => .RawColorMap
  | 2 => .RawTrueColor
  | 3 => .RawGreyScale
  | 9 => .RunColorMap
  | 10 => .RunTrueColor
  | 11 => .RunGreyScale
  | _ => .Unknown

/-- Model of `ImageType::is_color`. -/
def ImageType.is_color : ImageType → Bool
  | .RawColorMap | .RawTrueColor | .RunTrueColor | .RunColorMap => true
  | _ => false

/-- Model of `ImageType::is_color_mapped`. -/
def ImageType.is_color_mapped : ImageType → Bool
  | .RawColorMap | .RunColorMap => true
  | _ => false

/-- Model of `ImageType::is_encoded`. -/
def ImageType.is_encoded : ImageType → Bool
  | .RunColorMap | .RunTrueColor | .RunGreyScale => true
  | _ => false

/-- The 12-field TGA header (field widths as in the original:
`u8` or little-endian `u16`). -/
structure Header where
  id_length : Nat
  map_type : Nat
  image_type : Nat
  map_origin : Nat
  map_length : Nat
  map_entry_size : Nat
  x_origin : Nat
  y_origin : Nat
  image_width : Nat
  image_height : Nat
  pixel_depth : Nat
  image_desc : Nat
deriving DecidableEq, Repr

/-- Model of `Header::new`: all fields zeroed. -/
def Header.new : Header := ⟨0, 0, 0, 0, 0, 0, 0, 0, 0, 0, 0, 0⟩

/-- Model of `Header::from_reader`: the twelve sequential field reads. -/
def Header.from_reader (s : Stream) : Except ImgError (Header × Stream) := do
  let (id_length, s) ← read_u8 s
  let (map_type, s) ← read_u8 s
  let (image_type, s) ← read_u8 s
  let (map_origin, s) ← read_le_u16 s
  let (map_length, s) ← read_le_u16 s
  let (map_entry_size, s) ← read_u8 s
  let (x_origin, s) ← read_le_u16 s
  let (y_origin, s) ← read_le_u16 s
  let (image_width, s) ← read_le_u16 s
  let (image_height, s) ← read_le_u16 s
  let (pixel_depth, s) ← read_u8 s
  let (image_desc, s) ← read_u8 s
  return (⟨id_length, map_type, image_type, map_origin, map_length,
           map_entry_size, x_origin, y_origin, image_width, image_height,
           pixel_depth, image_desc⟩, s)

/-- The `ColorType` enumeration of the hosting framework (`color.rs`),
restricted to the variants this decoder uses. -/
inductive ColorType where
  | Grey (depth : Nat)
  | GreyA (depth : Nat)
  | RGB (depth : Nat)
  | RGBA (depth : Nat)
deriving DecidableEq, Repr

/-- The decoder's color map: a byte buffer plus a logical start offset
and the entry size in bytes. -/
structure ColorMap where
  start_offset : Nat
  entry_size : Nat
  bytes : List Nat
deriving DecidableEq, Repr

/-- Model of `ColorMap::from_reader`: reads `num_entries * ceil(bits_per_entry/8)`
bytes. -/
def ColorMap.from_reader (s : Stream) (start_offset num_entries bits_per_entry : Nat) :
    Except ImgError (ColorMap × Stream) := do
  let bytes_per_entry := (bits_per_entry + 7) / 8
  let (bytes, s) ← read_exact (bytes_per_entry * num_entries) s
  return (⟨start_offset, bytes_per_entry, bytes⟩, s)

/-- Model of `ColorMap::get`: the `entry_size`-byte slice at byte offset
`start_offset + entry_size * index`; `none` models the original's
slice-bounds panic. -/
def ColorMap.get (cm : ColorMap) (index : Nat) : Option (List Nat) :=
  let entry := cm.start_offset + cm.entry_size * index
  if entry + cm.entry_size ≤ cm.bytes.length then
    some ((cm.bytes.drop entry).take cm.entry_size)
  else none

/-- The decoder state (`TGADecoder<R>` with the reader inlined). -/
structure TGADecoder where
  r : Stream
  width : Nat
  height : Nat
  bytes_per_pixel : Nat
  has_loaded_metadata : Bool
  image_type : ImageType
  color_type : ColorType
  header : Header
  color_map : Option ColorMap
deriving DecidableEq, Repr

/-- Model of `TGADecoder::new`. -/
def TGADecoder.new (r : Stream) : TGADecoder :=
  ⟨r, 0, 0, 0, false, .Unknown, .Grey 1, Header.new, none⟩

/-- Model of `TGADecoder::read_header`: parse the header and derive
`image_type`, `width`, `height`, `bytes_per_pixel`. -/
def TGADecoder.read_header (d : TGADecoder) : Except ImgError TGADecoder := do
  let (h, r) ← Header.from_reader d.r
  return { d with
    r := r
    header := h
    image_type := ImageType.new h.image_type
    width := h.image_width
    height := h.image_height
    bytes_per_pixel := (h.pixel_depth + 7) / 8 }

/-- Model of `TGADecoder::read_image_id`: skip `id_length` bytes. -/
def TGADecoder.read_image_id (d : TGADecoder) : Except ImgError TGADecoder :=
  .ok { d with r := seek_forward d.header.id_length d.r }

/-- Model of `TGADecoder::read_color_map`: load the palette when `map_type == 1`. -/
def TGADecoder.read_color_map (d : TGADecoder) : Except ImgError TGADecoder :=
  if d.header.map_type = 1 then do
    let (cm, r) ← ColorMap.from_reader d.r d.header.map_origin
                    d.header.map_length d.header.map_entry_size
    return { d with r := r, color_map := some cm }
  else .ok d

/-- The `num_alpha_bits` value computed by
`TGADecoder::read_color_information`: `image_desc & 0b1111`. -/
def num_alpha_bits (h : Header) : Nat := h.image_desc &&& 0b1111

/-- The `other_channel_bits` value computed by
`TGADecoder::read_color_information`: `map_entry_size` when
`map_type != 0`, else the wrapping `u8` difference
`pixel_depth - num_alpha_bits`. -/
def other_channel_bits (h : Header) : Nat :=
  if h.map_type ≠ 0 then h.map_entry_size
  else (h.pixel_depth + 256 - num_alpha_bits h) % 256

/-- Model of `TGADecoder::read_color_information`: validate the pixel depth and
resolve the output `ColorType`. -/
def TGADecoder.read_color_information (d : TGADecoder) : Except ImgError TGADecoder :=
  if d.header.pixel_depth % 8 ≠ 0 then
    .error (.unsupported "Bit depth must be divisible by 8")
  else if d.header.pixel_depth > 32 then
    .error (.unsupported "Bit depth must be less than 32")
  else
    match num_alpha_bits d.header, other_channel_bits d.header, d.image_type.is_color with
    | 8, 24, true => .ok { d with color_type := .RGBA 8 }
    | 0, 24, true => .ok { d with color_type := .RGB 8 }
    | 8, 8, false => .ok { d with color_type := .GreyA 8 }
    | 0, 8, false => .ok { d with color_type := .Grey 8 }
    | a, o, _ =>
      .error (.unsupported
        s!"Color format not supported. Bit depth: {o}, Alpha bits: {a}")

/-- Model of `TGADecoder::read_metadata`: the lazy, once-only metadata load. -/
def TGADecoder.read_metadata (d : TGADecoder) : Except ImgError TGADecoder :=
  if d.has_loaded_metadata then .ok d
  else do
    let d ← d.read_header
    let d ← d.read_image_id
    let d ← d.read_color_map
    let d ← d.read_color_information
    Except.ok { d with has_loaded_metadata := true }

/-- Model of `bytes_to_index` (local to `expand_color_map`): fold the chunk's
bytes most-significant-first. -/
def bytes_to_index (bytes : List Nat) : Nat :=
  bytes.foldl (fun result byte => result <<< 8 ||| byte) 0

/-- Fuel-driven worker for `chunksOf`; the fuel bounds the number of
chunks produced and `l.length` fuel always suffices (each step removes
at least one element when `n ≠ 0`). -/
def chunksOfF (fuel n : Nat) (l : List Nat) : List (List Nat) :=
  match fuel with
  | 0 => []
  | fuel + 1 =>
    if l = [] then [] else l.take n :: chunksOfF fuel n (l.drop n)

/-- The slice iterator `chunks(n)` of the original: split `l` into
pieces of `n` bytes, the last piece possibly shorter.  Meaningful for
`n ≠ 0`; the original asserts `n != 0` and call sites of this embedding
guard that case separately. -/
def chunksOf (n : Nat) (l : List Nat) : List (List Nat) :=
  chunksOfF l.length n l

/-- Apply a partial per-chunk transformation to each chunk in order,
turning the first failure (a panic of the original code) into
`panicked`.  This is the shape of the per-chunk loops of
`expand_color_map` and `reverse_encoding`. -/
def mapPanic (f : List Nat → Option (List Nat)) :
    List (List Nat) → Except ImgError (List (List Nat))
  | [] => .ok []
  | c :: rest =>
    match f c with
    | none => .error .panicked
    | some e =>
      match mapPanic f rest with
      | .error err => .error err
      | .ok es => .ok (e :: es)

/-- Model of `TGADecoder::expand_color_map`: reinterpret the pixel buffer as
`bytes_per_pixel`-byte index chunks and replace each by its palette
entry.  `panicked` models the original's `unreachable!` when no color
map is present, the `chunks(0)` assertion, and `ColorMap::get`'s
slice-bounds panic. -/
def TGADecoder.expand_color_map (d : TGADecoder) (pixel_data : List Nat) :
    Except ImgError (List Nat) :=
  match d.color_map with
  | none => .error .panicked
  | some cm =>
    if d.bytes_per_pixel = 0 then .error .panicked
    else
      match mapPanic (fun chunk => cm.get (bytes_to_index chunk))
          (chunksOf d.bytes_per_pixel pixel_data) with
      | .error e => .error e
      | .ok entries => .ok entries.flatten

/-- One `while num_read < num_pixels` loop of
`TGADecoder::read_encoded_data`, with explicit fuel.  `none` marks fuel
exhaustion; since every iteration consumes at least one byte of the
stream, `s.remaining + 1` fuel always suffices (proved below). -/
def read_encoded_loop (fuel : Nat) (bpp num_pixels num_read : Nat)
    (acc : List Nat) (s : Stream) :
    Option (Except ImgError (List Nat × Stream)) :=
  match fuel with
  | 0 => none
  | fuel + 1 =>
    if num_read < num_pixels then
      match read_u8 s with
      | .error e => some (.error e)
      | .ok (run_packet, s) =>
        if run_packet &&& 0x80 ≠ 0 then
          let repeat_count := (run_packet &&& 0x7F) + 1
          match read_exact bpp s with
          | .error e => some (.error e)
          | .ok (data, s) =>
            read_encoded_loop fuel bpp num_pixels (num_read + repeat_count)
              (acc ++ (List.replicate repeat_count data).flatten) s
        else
          let num_raw_bytes := (run_packet + 1) * bpp
          match read_exact num_raw_bytes s with
          | .error e => some (.error e)
          | .ok (data, s) =>
            read_encoded_loop fuel bpp num_pixels (num_read + run_packet)
              (acc ++ data) s
    else some (.ok (acc, s))

/-- Model of `TGADecoder::read_encoded_data`: run the RLE loop with enough fuel;
the fuel-exhaustion branch is unreachable (see the totality theorem). -/
def TGADecoder.read_encoded_data (d : TGADecoder) :
    Except ImgError (List Nat × Stream) :=
  match read_encoded_loop (d.r.remaining + 1) d.bytes_per_pixel
      (d.width * d.height) 0 [] d.r with
  | some r => r
  | none => .error .panicked

/-- The chunk body of `TGADecoder::reverse_encoding`: swap bytes 0 and 2
of a chunk; `none` models the index panic when the chunk is shorter
than 3 bytes. -/
def swap02 (chunk : List Nat) : Option (List Nat) :=
  match chunk[0]?, chunk[2]? with
  | some b0, some b2 => some ((chunk.set 0 b2).set 2 b0)
  | _, _ => none

/-- Model of `TGADecoder::reverse_encoding`: swap bytes 0 and 2 of every
`bytes_per_pixel`-sized chunk for `RGB(8)` and `RGBA(8)`; leave every
other color type untouched.  `panicked` models the `chunks_mut(0)`
assertion and the `chunk[2]` index panic. -/
def TGADecoder.reverse_encoding (d : TGADecoder) (pixels : List Nat) :
    Except ImgError (List Nat) :=
  match d.color_type with
  | .RGB 8 =>
    if d.bytes_per_pixel = 0 then .error .panicked
    else
      match mapPanic swap02 (chunksOf d.bytes_per_pixel pixels) with
      | .error e => .error e
      | .ok chunks => .ok chunks.flatten
  | .RGBA 8 =>
    if d.bytes_per_pixel = 0 then .error .panicked
    else
      match mapPanic swap02 (chunksOf d.bytes_per_pixel pixels) with
      | .error e => .error e
      | .ok chunks => .ok chunks.flatten
  | _ => .ok pixels

/-- Model of `TGADecoder::read_image_data`: raw or RLE extraction, optional
color-map expansion, then channel reversal. -/
def TGADecoder.read_image_data (d : TGADecoder) :
    Except ImgError (List Nat × TGADecoder) := do
  let (pixel_data, r) ←
    if d.image_type.is_encoded then d.read_encoded_data
    else read_exact (d.width * d.height * d.bytes_per_pixel) d.r
  let d := { d with r := r }
  let pixel_data ←
    if d.image_type.is_color_mapped then d.expand_color_map pixel_data
    else .ok pixel_data
  let pixel_data ← d.reverse_encoding pixel_data
  return (pixel_data, d)

/-- Model of `ImageDecoder::dimensions` for the TGA decoder. -/
def TGADecoder.dimensions (d : TGADecoder) :
    Except ImgError ((Nat × Nat) × TGADecoder) := do
  let d ← d.read_metadata
  return ((d.width, d.height), d)

/-- Model of `ImageDecoder::colortype` for the TGA decoder. -/
def TGADecoder.colortype (d : TGADecoder) :
    Except ImgError (ColorType × TGADecoder) := do
  let d ← d.read_metadata
  return (d.color_type, d)

/-- Model of `ImageDecoder::row_len` for the TGA decoder. -/
def TGADecoder.row_len (d : TGADecoder) :
    Except ImgError (Nat × TGADecoder) := do
  let d ← d.read_metadata
  return (d.bytes_per_pixel * 8 * d.width, d)

/-- Model of `ImageDecoder::read_scanline` for the TGA decoder:
`unimplemented!()`, i.e. an unconditional panic. -/
def TGADecoder.read_scanline (d : TGADecoder) (buf : List Nat) :
    Except ImgError (Nat × TGADecoder) :=
  .error .panicked

/-- Model of `ImageDecoder::read_image` for the TGA decoder. -/
def TGADecoder.read_image (d : TGADecoder) :
    Except ImgError (List Nat × TGADecoder) := do
  let d ← d.read_metadata
  d.read_image_data

/-- A header with an active color map (`map_type = 1`) but a true-color
image type (code 2), 5-bit map entries, 32-bit pixels and 8 alpha bits. -/
def c3header : Header := ⟨0, 1, 2, 0, 0, 5, 0, 0, 0, 0, 32, 8⟩

/-- A complete TGA file: color-mapped image (type 1), one 24-bit map
entry `[10, 20, 30]`, 8-bit index pixels, a single pixel of index 0. -/
def c9bytes : List Nat :=
  [0, 1, 1, 0, 0, 1, 0, 24, 0, 0, 0, 0, 1, 0, 1, 0, 8, 0] ++ [10, 20, 30] ++ [0]

/-- The decoder state after loading the metadata of `c9bytes`. -/
def c9loaded : TGADecoder :=
  { r := ⟨c9bytes, 21⟩
    width := 1
    height := 1
    bytes_per_pixel := 1
    has_loaded_metadata := true
    image_type := .RawColorMap
    color_type := .RGB 8
    header := ⟨0, 1, 1, 0, 1, 24, 0, 0, 1, 1, 8, 0⟩
    color_map := some ⟨0, 3, [10, 20, 30]⟩ }

/-! ## Helper lemmas -/

theorem except_bind_ok {α β : Type} (a : α) (f : α → Except ImgError β) :
    (Except.ok a >>= f) = f a := rfl

theorem except_bind_error {α β : Type} (e : ImgError) (f : α → Except ImgError β) :
    ((Except.error e : Except ImgError α) >>= f) = Except.error e := rfl

theorem read_u8_ok {s s' : Stream} {b : Nat} (h : read_u8 s = .ok (b, s')) :
    s'.data = s.data ∧ s'.pos = s.pos + 1 ∧ s.pos < s.data.length := by
  unfold read_u8 at h
  rcases hg : s.data[s.pos]? with _ | v
  · rw [hg] at h; exact absurd h (by simp)
  · rw [hg] at h
    cases h
    exact ⟨rfl, rfl, (List.getElem?_eq_some.mp hg).1⟩

theorem read_exact_ok {n : Nat} {s s' : Stream} {bs : List Nat}
    (h : read_exact n s = .ok (bs, s')) :
    s'.data = s.data ∧ s'.pos = s.pos + n ∧ s.pos + n ≤ s.data.length := by
  unfold read_exact at h
  split at h
  · cases h; exact ⟨rfl, rfl, by assumption⟩
  · exact absurd h (by simp)

theorem chunksOfF_nil (fuel n : Nat) : chunksOfF fuel n [] = [] := by
  cases fuel <;> simp [chunksOfF]

theorem chunksOfF_congr (f : Nat) : ∀ (g n : Nat) (l : List Nat), n ≠ 0 →
    l.length ≤ f → l.length ≤ g → chunksOfF f n l = chunksOfF g n l := by
  induction f with
  | zero =>
    intro g n l _ hf _
    rw [List.length_eq_zero.mp (Nat.le_zero.mp hf), chunksOfF_nil, chunksOfF_nil]
  | succ f ih =>
    intro g n l hn hf hg
    by_cases hl : l = []
    · rw [hl, chunksOfF_nil, chunksOfF_nil]
    · have hlen : 1 ≤ l.length := List.length_pos.mpr hl
      obtain ⟨g', rfl⟩ : ∃ g', g = g' + 1 :=
        ⟨g - 1, by omega⟩
      simp only [chunksOfF, hl, if_false]
      rw [ih g' n (l.drop n) hn (by simp; omega) (by simp; omega)]

theorem chunksOf_cons {n : Nat} {l : List Nat} (hn : n ≠ 0) (hl : l ≠ []) :
    chunksOf n l = l.take n :: chunksOf n (l.drop n) := by
  have hlen : 1 ≤ l.length := List.length_pos.mpr hl
  obtain ⟨k, hk⟩ : ∃ k, l.length = k + 1 := ⟨l.length - 1, by omega⟩
  unfold chunksOf
  rw [hk]
  simp only [chunksOfF, hl, if_false]
  rw [chunksOfF_congr k ((l.drop n).length) n (l.drop n) hn (by simp; omega) le_rfl]

theorem chunksOf_mem_length {n : Nat} (hn : n ≠ 0) :
    ∀ (l : List Nat), l.length % n = 0 →
      ∀ c ∈ chunksOf n l, c.length = n := by
  have main : ∀ (k : Nat) (l : List Nat), l.length ≤ k → l.length % n = 0 →
      ∀ c ∈ chunksOf n l, c.length = n := by
    intro k
    induction k with
    | zero =>
      intro l hk _ c hc
      rw [List.length_eq_zero.mp (Nat.le_zero.mp hk)] at hc
      simp [chunksOf, chunksOfF_nil] at hc
    | succ k ih =>
      intro l hk hmod c hc
      by_cases hl : l = []
      · rw [hl] at hc; simp [chunksOf, chunksOfF_nil] at hc
      · have hlen : 1 ≤ l.length := List.length_pos.mpr hl
        have hnl : n ≤ l.length := by
          by_contra hcon
          push_neg at hcon
          rw [Nat.mod_eq_of_lt hcon] at hmod
          omega
        have hdvd : n ∣ l.length := Nat.dvd_of_mod_eq_zero hmod
        have hdvd' : n ∣ l.length - n := Nat.dvd_sub' hdvd dvd_rfl
        rw [chunksOf_cons hn hl, List.mem_cons] at hc
        rcases hc with hc | hc
        · rw [hc]; simp [List.length_take]; omega
        · exact ih (l.drop n) (by simp; omega)
            (by rw [List.length_drop]
                exact Nat.mod_eq_zero_of_dvd hdvd') c hc
  exact fun l h => main l.length l le_rfl h

theorem mapPanic_ok (f : List Nat → Option (List Nat)) :
    ∀ (l : List (List Nat)), (∀ c ∈ l, (f c).isSome = true) →
      mapPanic f l = Except.ok (l.map (fun c => (f c).getD [])) := by
  intro l
  induction l with
  | nil => intro _; rfl
  | cons a l ih =>
    intro h
    obtain ⟨e, he⟩ := Option.isSome_iff_exists.mp (h a (by simp))
    simp [mapPanic, he, ih (fun c hc => h c (by simp [hc]))]

theorem swap02_of_length {c : List Nat} (h : 2 < c.length) :
    swap02 c = some ((c.set 0 (c.getD 2 0)).set 2 (c.getD 0 0)) := by
  rcases c with _ | ⟨a, _ | ⟨b, _ | ⟨e, rest⟩⟩⟩ <;> simp_all [swap02]

/-! ## Claim theorems -/

/-- C4. `ImageType::new` is a pure total classification: `0`, `1`, `2`,
`3`, `9`, `10`, `11` map to the seven named variants and every other
value maps to `Unknown`; `is_color`, `is_color_mapped` and `is_encoded`
hold exactly on the documented members. -/
theorem claim4_image_type_classification :
    (ImageType.new 0 = .NoImageData ∧ ImageType.new 1 = .RawColorMap ∧
     ImageType.new 2 = .RawTrueColor ∧ ImageType.new 3 = .RawGreyScale ∧
     ImageType.new 9 = .RunColorMap ∧ ImageType.new 10 = .RunTrueColor ∧
     ImageType.new 11 = .RunGreyScale) ∧
    (∀ b : Nat, b ∉ ([0, 1, 2, 3, 9, 10, 11] : List Nat) →
      ImageType.new b = .Unknown) ∧
    (∀ t : ImageType, t.is_color = true ↔
      (t = .RawColorMap ∨ t = .RawTrueColor ∨ t = .RunTrueColor ∨ t = .RunColorMap)) ∧
    (∀ t : ImageType, t.is_color_mapped = true ↔
      (t = .RawColorMap ∨ t = .RunColorMap)) ∧
    (∀ t : ImageType, t.is_encoded = true ↔
      (t = .RunColorMap ∨ t = .RunTrueColor ∨ t = .RunGreyScale)) := by
  refine ⟨by decide, ?_, ?_, ?_, ?_⟩
  · intro b hb
    simp only [List.mem_cons, List.not_mem_nil, or_false] at hb
    push_neg at hb
    obtain ⟨h0, h1, h2, h3, h9, h10, h11⟩ := hb
    unfold ImageType.new
    split <;> simp_all
  · intro t; cases t <;> simp [ImageType.is_color]
  · intro t; cases t <;> simp [ImageType.is_color_mapped]
  · intro t; cases t <;> simp [ImageType.is_encoded]

/-- C4 witness: an unmapped byte (5) classifies to `Unknown`. -/
theorem claim4_witness : ImageType.new 5 = .Unknown :=
  claim4_image_type_classification.2.1 5 (by decide)

/-- C8. `read_scanline` is unsupported: for every decoder state and
buffer it fails (with the panic of `unimplemented!`), never producing a
scanline result. -/
theorem claim8_read_scanline_always_fails (d : TGADecoder) (buf : List Nat) :
    d.read_scanline buf = .error .panicked := rfl

/-- C3 counterexample: on `c3header` (`map_type = 1`, image type 2,
which is not color-mapped) the code takes `map_entry_size` (5), while
the claim demands `pixel_depth - num_alpha_bits` (24). -/
theorem claim3_counterexample :
    (ImageType.new c3header.image_type).is_color_mapped = false ∧
    other_channel_bits c3header = c3header.map_entry_size ∧
    c3header.pixel_depth - num_alpha_bits c3header = 24 ∧
    other_channel_bits c3header ≠
      c3header.pixel_depth - num_alpha_bits c3header := by decide

/-- C3 amended. `other_channel_bits` equals `map_entry_size` exactly
when `header.map_type ≠ 0` (not when the image type is color-mapped),
and otherwise equals the wrapping `u8` difference
`pixel_depth - num_alpha_bits` (the plain difference whenever
`num_alpha_bits ≤ pixel_depth < 256`). -/
theorem claim3_other_channel_bits (h : Header) :
    (h.map_type ≠ 0 → other_channel_bits h = h.map_entry_size) ∧
    (h.map_type = 0 →
      other_channel_bits h = (h.pixel_depth + 256 - num_alpha_bits h) % 256) ∧
    (h.map_type = 0 → h.pixel_depth < 256 →
      num_alpha_bits h ≤ h.pixel_depth →
      other_channel_bits h = h.pixel_depth - num_alpha_bits h) := by
  refine ⟨fun hm => by simp [other_channel_bits, hm],
          fun hm => by simp [other_channel_bits, hm],
          fun hm hd ha => ?_⟩
  simp only [other_channel_bits, hm, ne_eq, not_true_eq_false, if_false]
  omega

/-- C3 witness: on `c3header`, `map_type = 1 ≠ 0` forces
`other_channel_bits = map_entry_size`. -/
theorem claim3_witness :
    other_channel_bits c3header = c3header.map_entry_size :=
  (claim3_other_channel_bits c3header).1 (by decide)

/-- C7. The metadata load runs at most once: when the flag is set the
load is a no-op returning the state (and hence the stream) unchanged;
when it is clear it is the header read, image-ID skip, color-map load
and color resolution in that fixed order followed by setting the flag;
and after any successful load every further load is a no-op. -/
theorem claim7_metadata_load_once (d : TGADecoder) :
    (d.has_loaded_metadata = true → d.read_metadata = .ok d) ∧
    (d.has_loaded_metadata = false →
      d.read_metadata = do
        let d1 ← d.read_header
        let d2 ← d1.read_image_id
        let d3 ← d2.read_color_map
        let d4 ← d3.read_color_information
        Except.ok { d4 with has_loaded_metadata := true }) ∧
    (∀ d', d.read_metadata = .ok d' →
      d'.has_loaded_metadata = true ∧ d'.read_metadata = .ok d') := by
  refine ⟨fun h => by simp [TGADecoder.read_metadata, h],
          fun h => by simp [TGADecoder.read_metadata, h],
          fun d' h => ?_⟩
  unfold TGADecoder.read_metadata at h
  by_cases hl : d.has_loaded_metadata
  · simp only [hl, if_true] at h
    cases h
    exact ⟨hl, by simp [TGADecoder.read_metadata, hl]⟩
  · simp only [hl, if_false] at h
    cases h1 : d.read_header with
    | error e => rw [h1, except_bind_error] at h; simp at h
    | ok d1 =>
      rw [h1, except_bind_ok] at h
      cases h2 : d1.read_image_id with
      | error e => rw [h2, except_bind_error] at h; simp at h
      | ok d2 =>
        rw [h2, except_bind_ok] at h
        cases h3 : d2.read_color_map with
        | error e => rw [h3, except_bind_error] at h; simp at h
        | ok d3 =>
          rw [h3, except_bind_ok] at h
          cases h4 : d3.read_color_information with
          | error e => rw [h4, except_bind_error] at h; simp at h
          | ok d4 =>
            rw [h4, except_bind_ok] at h
            cases h
            exact ⟨rfl, by simp [TGADecoder.read_metadata]⟩

/-- C7 witness: on a decoder whose flag is already set, the load
returns the state unchanged. -/
theorem claim7_witness :
    TGADecoder.read_metadata
      { TGADecoder.new ⟨[3, 1, 4], 0⟩ with has_loaded_metadata := true } =
    .ok { TGADecoder.new ⟨[3, 1, 4], 0⟩ with has_loaded_metadata := true } :=
  (claim7_metadata_load_once _).1 rfl

/-- C9. The chunk indexing of `reverse_encoding` is reachable out of
bounds: decoding the complete file `c9bytes` resolves the color type to
`RGB(8)` with `bytes_per_pixel = 1`; color-map expansion succeeds, and
the subsequent channel reversal hits the `chunk[2]` index panic, so the
whole decode ends in the panic branch of the embedding. -/
theorem claim9_reverse_encoding_panic_reachable :
    (TGADecoder.new ⟨c9bytes, 0⟩).read_metadata = .ok c9loaded ∧
    c9loaded.color_type = .RGB 8 ∧
    c9loaded.bytes_per_pixel = 1 ∧
    c9loaded.image_type.is_color_mapped = true ∧
    c9loaded.expand_color_map [0] = .ok [10, 20, 30] ∧
    c9loaded.reverse_encoding [10, 20, 30] = .error .panicked ∧
    (TGADecoder.new ⟨c9bytes, 0⟩).read_image = .error .panicked :=
  ⟨rfl, rfl, rfl, rfl, rfl, rfl, rfl⟩

/-- C2. Color resolution rejects pixel depths not divisible by 8 or
above 32 with an unsupported-format error; past those checks it
succeeds exactly on the four documented
`(num_alpha_bits, other_channel_bits, is_color)` triples, setting the
corresponding color type, and rejects every other triple with an
unsupported-format error. -/
theorem claim2_color_resolution (d : TGADecoder) :
    (d.header.pixel_depth % 8 ≠ 0 ∨ 32 < d.header.pixel_depth →
      isUnsupported d.read_color_information = true) ∧
    (d.header.pixel_depth % 8 = 0 → d.header.pixel_depth ≤ 32 →
      ((num_alpha_bits d.header, other_channel_bits d.header,
          d.image_type.is_color) = (8, 24, true) →
        d.read_color_information = .ok { d with color_type := .RGBA 8 }) ∧
      ((num_alpha_bits d.header, other_channel_bits d.header,
          d.image_type.is_color) = (0, 24, true) →
        d.read_color_information = .ok { d with color_type := .RGB 8 }) ∧
      ((num_alpha_bits d.header, other_channel_bits d.header,
          d.image_type.is_color) = (8, 8, false) →
        d.read_color_information = .ok { d with color_type := .GreyA 8 }) ∧
      ((num_alpha_bits d.header, other_channel_bits d.header,
          d.image_type.is_color) = (0, 8, false) →
        d.read_color_information = .ok { d with color_type := .Grey 8 }) ∧
      ((num_alpha_bits d.header, other_channel_bits d.header,
          d.image_type.is_color) ∉
          ([(8, 24, true), (0, 24, true), (8, 8, false), (0, 8, false)] :
            List (Nat × Nat × Bool)) →
        isUnsupported d.read_color_information = true)) := by
  constructor
  · intro hbad
    unfold TGADecoder.read_color_information
    rcases hbad with hbad | hbad
    · simp [hbad, isUnsupported]
    · rcases eq_or_ne (d.header.pixel_depth % 8) 0 with h8 | h8
      · simp [h8, hbad, isUnsupported]
      · simp [h8, isUnsupported]
  · intro h8 h32
    have hgood : ¬ d.header.pixel_depth % 8 ≠ 0 := by omega
    have hgood32 : ¬ 32 < d.header.pixel_depth := by omega
    refine ⟨fun ht => ?_, fun ht => ?_, fun ht => ?_, fun ht => ?_, fun ht => ?_⟩ <;>
      simp only [Prod.mk.injEq] at ht
    · obtain ⟨ha, ho, hc⟩ := ht
      simp [TGADecoder.read_color_information, hgood, hgood32, ha, ho, hc]
    · obtain ⟨ha, ho, hc⟩ := ht
      simp [TGADecoder.read_color_information, hgood, hgood32, ha, ho, hc]
    · obtain ⟨ha, ho, hc⟩ := ht
      simp [TGADecoder.read_color_information, hgood, hgood32, ha, ho, hc]
    · obtain ⟨ha, ho, hc⟩ := ht
      simp [TGADecoder.read_color_information, hgood, hgood32, ha, ho, hc]
    · unfold TGADecoder.read_color_information
      simp only [hgood, if_false, hgood32]
      split
      · exact absurd (by simp_all) ht
      · exact absurd (by simp_all) ht
      · exact absurd (by simp_all) ht
      · exact absurd (by simp_all) ht
      · simp [isUnsupported]

/-- C2 witness: a decoder with a plain 24-bit true-color header
(`pixel_depth = 24`, no alpha bits, no color map) resolves to `RGB(8)`. -/
theorem claim2_witness :
    TGADecoder.read_color_information
      { TGADecoder.new ⟨[], 0⟩ with
          header := { Header.new with pixel_depth := 24, image_type := 2 }
          image_type := .RawTrueColor } =
    .ok { TGADecoder.new ⟨[], 0⟩ with
            header := { Header.new with pixel_depth := 24, image_type := 2 }
            image_type := .RawTrueColor
            color_type := .RGB 8 } :=
  ((claim2_color_resolution _).2 (by decide) (by decide)).2.1 (by decide)

/-- C1. One iteration of the RLE loop: below `width*height` decoded
pixels it reads a control byte `c`; when `c & 0x80 ≠ 0` it reads one
`bytes_per_pixel`-byte pixel, appends it `(c & 0x7F) + 1` times and
advances `num_read` by that count; otherwise it reads
`(c + 1) * bytes_per_pixel` bytes, appends them verbatim and advances
`num_read` by the raw value `c` (not `c + 1`); once
`num_read ≥ width*height` it stops, and `read_encoded_data` runs the
loop from `num_read = 0` with target `width * height`. -/
theorem claim1_rle_decode (fuel bpp num_pixels num_read : Nat)
    (acc : List Nat) (s : Stream) :
    (¬ num_read < num_pixels →
      read_encoded_loop (fuel + 1) bpp num_pixels num_read acc s =
        some (.ok (acc, s))) ∧
    (∀ c s1 px s2, num_read < num_pixels → read_u8 s = .ok (c, s1) →
      c &&& 0x80 ≠ 0 → read_exact bpp s1 = .ok (px, s2) →
      read_encoded_loop (fuel + 1) bpp num_pixels num_read acc s =
        read_encoded_loop fuel bpp num_pixels (num_read + ((c &&& 0x7F) + 1))
          (acc ++ (List.replicate ((c &&& 0x7F) + 1) px).flatten) s2) ∧
    (∀ c s1 bs s2, num_read < num_pixels → read_u8 s = .ok (c, s1) →
      c &&& 0x80 = 0 → read_exact ((c + 1) * bpp) s1 = .ok (bs, s2) →
      read_encoded_loop (fuel + 1) bpp num_pixels num_read acc s =
        read_encoded_loop fuel bpp num_pixels (num_read + c) (acc ++ bs) s2) ∧
    (∀ d : TGADecoder, d.read_encoded_data =
      (read_encoded_loop (d.r.remaining + 1) d.bytes_per_pixel
        (d.width * d.height) 0 [] d.r).getD (.error .panicked)) := by
  refine ⟨fun hstop => by simp [read_encoded_loop, hstop],
          fun c s1 px s2 hlt hu hch hre => ?_,
          fun c s1 bs s2 hlt hu hch hre => ?_,
          fun d => ?_⟩
  · simp [read_encoded_loop, hlt, hu, hch, hre]
  · simp [read_encoded_loop, hlt, hu, hch, hre]
  · rcases h : read_encoded_loop (d.r.remaining + 1) d.bytes_per_pixel
        (d.width * d.height) 0 [] d.r with _ | r <;>
      simp [TGADecoder.read_encoded_data, h]

/-- C1 witness: the repeat packet `[0x83, 7, 8, 9]` with
`bytes_per_pixel = 3` over a 2×2 image appends the pixel four times and
finishes the loop. -/
theorem claim1_witness :
    read_encoded_loop 4 3 4 0 [] ⟨[131, 7, 8, 9], 0⟩ =
      some (.ok ([7, 8, 9, 7, 8, 9, 7, 8, 9, 7, 8, 9],
        ⟨[131, 7, 8, 9], 4⟩)) := by
  have hstep := (claim1_rle_decode 3 3 4 0 [] ⟨[131, 7, 8, 9], 0⟩).2.1
    131 ⟨[131, 7, 8, 9], 1⟩ [7, 8, 9] ⟨[131, 7, 8, 9], 4⟩
    (by decide) (by rfl) (by decide) (by rfl)
  have hdone := (claim1_rle_decode 2 3 4
    (0 + ((131 &&& 0x7F) + 1))
    ([] ++ (List.replicate ((131 &&& 0x7F) + 1) [7, 8, 9]).flatten)
    ⟨[131, 7, 8, 9], 4⟩).1 (by decide)
  rw [hstep, hdone]
  rfl

/-- C10. The RLE loop terminates on every finite source: with any fuel
exceeding the bytes remaining in the stream, the loop never exhausts
its fuel — every iteration either consumes at least the control byte or
fails with an I/O error, so `remaining + 1` fuel always suffices. -/
theorem claim10_rle_terminates (fuel : Nat) :
    ∀ (bpp num_pixels num_read : Nat) (acc : List Nat) (s : Stream),
      s.remaining < fuel →
      (read_encoded_loop fuel bpp num_pixels num_read acc s).isSome = true := by
  induction fuel with
  | zero => exact fun _ _ _ _ s h => absurd h (Nat.not_lt_zero _)
  | succ fuel ih =>
    intro bpp num_pixels num_read acc s h
    simp only [read_encoded_loop]
    by_cases hlt : num_read < num_pixels
    · simp only [hlt, if_true]
      cases hu : read_u8 s with
      | error e => simp
      | ok cs =>
        obtain ⟨c, s1⟩ := cs
        dsimp only
        obtain ⟨hd1, hp1, hb1⟩ := read_u8_ok hu
        have hl1 : s1.data.length = s.data.length := by rw [hd1]
        by_cases hch : c &&& 0x80 ≠ 0
        · rw [if_pos hch]
          cases hre : read_exact bpp s1 with
          | error e => simp
          | ok ds =>
            obtain ⟨data, s2⟩ := ds
            obtain ⟨hd2, hp2, hb2⟩ := read_exact_ok hre
            have hl2 : s2.data.length = s1.data.length := by rw [hd2]
            apply ih
            simp only [Stream.remaining] at h ⊢
            omega
        · rw [if_neg hch]
          cases hre : read_exact ((c + 1) * bpp) s1 with
          | error e => simp
          | ok ds =>
            obtain ⟨data, s2⟩ := ds
            obtain ⟨hd2, hp2, hb2⟩ := read_exact_ok hre
            have hl2 : s2.data.length = s1.data.length := by rw [hd2]
            apply ih
            simp only [Stream.remaining] at h ⊢
            omega
    · simp [hlt]

/-- C10 witness: a raw-run packet with control byte 0 (which leaves
`num_read` unchanged) still terminates — the loop result is defined. -/
theorem claim10_witness :
    (read_encoded_loop 5 1 1 0 [] ⟨[0, 42, 0, 43], 0⟩).isSome = true :=
  claim10_rle_terminates 5 1 1 0 [] ⟨[0, 42, 0, 43], 0⟩ (by decide)

/-- C5. Color-map expansion maps each `bytes_per_pixel`-byte chunk of
the pixel buffer, assembled most-significant-byte-first into an index,
to the raw bytes of the corresponding color-map entry, concatenated in
order with no reordering; the index fold starts at 0 and treats each
subsequent byte by shifting left 8 bits and ORing it in; and a 1-entry
palette `[R, G, B]` at start offset 0 expands index sequence `[0]` to
`[R, G, B]`. -/
theorem claim5_color_map_expansion :
    (∀ (d : TGADecoder) (cm : ColorMap) (pixel_data : List Nat),
      d.color_map = some cm → d.bytes_per_pixel ≠ 0 →
      (∀ c ∈ chunksOf d.bytes_per_pixel pixel_data,
        (cm.get (bytes_to_index c)).isSome = true) →
      d.expand_color_map pixel_data =
        .ok ((chunksOf d.bytes_per_pixel pixel_data).map
          (fun c => (cm.get (bytes_to_index c)).getD [])).flatten) ∧
    (bytes_to_index [] = 0 ∧
      ∀ (bs : List Nat) (b : Nat),
        bytes_to_index (bs ++ [b]) = bytes_to_index bs <<< 8 ||| b) ∧
    (∀ (R G B : Nat) (d : TGADecoder),
      d.color_map = some ⟨0, 3, [R, G, B]⟩ → d.bytes_per_pixel = 1 →
      d.expand_color_map [0] = .ok [R, G, B]) := by
  refine ⟨fun d cm pixel_data hcm hbpp hall => ?_,
          ⟨rfl, fun bs b => by simp [bytes_to_index, List.foldl_append]⟩,
          fun R G B d hcm hbpp => ?_⟩
  · unfold TGADecoder.expand_color_map
    rw [hcm]
    simp only [hbpp, if_false]
    rw [mapPanic_ok _ _ hall]
  · unfold TGADecoder.expand_color_map
    rw [hcm, hbpp]
    simp [chunksOf, chunksOfF, bytes_to_index, ColorMap.get, mapPanic]

/-- C5 witness: the documented 1-entry palette example. -/
theorem claim5_witness :
    TGADecoder.expand_color_map
      { TGADecoder.new ⟨[], 0⟩ with
          color_map := some ⟨0, 3, [7, 8, 9]⟩, bytes_per_pixel := 1 } [0] =
    .ok [7, 8, 9] :=
  claim5_color_map_expansion.2.2 7 8 9 _ rfl rfl

/-- C6. Channel reversal: for `RGB(8)` and `RGBA(8)` buffers whose
length is a multiple of `bytes_per_pixel ≥ 3`, every
`bytes_per_pixel`-sized chunk has byte 0 and byte 2 swapped in place
(all other bytes unchanged); for `Grey`/`GreyAlpha` color types the
buffer is returned entirely unchanged; and `[1,2,3,4,5,6]` under
`RGB(8)` with `bytes_per_pixel = 3` becomes `[3,2,1,6,5,4]`. -/
theorem claim6_reverse_encoding :
    (∀ (d : TGADecoder) (pixels : List Nat),
      d.color_type = .RGB 8 ∨ d.color_type = .RGBA 8 →
      3 ≤ d.bytes_per_pixel → d.bytes_per_pixel ∣ pixels.length →
      d.reverse_encoding pixels =
        .ok ((chunksOf d.bytes_per_pixel pixels).map
          (fun c => (c.set 0 (c.getD 2 0)).set 2 (c.getD 0 0))).flatten) ∧
    (∀ (d : TGADecoder) (pixels : List Nat),
      d.color_type = .Grey 8 ∨ d.color_type = .GreyA 8 →
      d.reverse_encoding pixels = .ok pixels) ∧
    (∀ d : TGADecoder, d.color_type = .RGB 8 → d.bytes_per_pixel = 3 →
      d.reverse_encoding [1, 2, 3, 4, 5, 6] = .ok [3, 2, 1, 6, 5, 4]) := by
  have main : ∀ (d : TGADecoder) (pixels : List Nat),
      3 ≤ d.bytes_per_pixel → d.bytes_per_pixel ∣ pixels.length →
      mapPanic swap02 (chunksOf d.bytes_per_pixel pixels) =
        .ok ((chunksOf d.bytes_per_pixel pixels).map
          (fun c => (c.set 0 (c.getD 2 0)).set 2 (c.getD 0 0))) := by
    intro d pixels hb3 hdvd
    have hbpp : d.bytes_per_pixel ≠ 0 := by omega
    have hlen := chunksOf_mem_length hbpp pixels (Nat.mod_eq_zero_of_dvd hdvd)
    have hall : ∀ c ∈ chunksOf d.bytes_per_pixel pixels,
        (swap02 c).isSome = true := fun c hc => by
      rw [swap02_of_length (by rw [hlen c hc]; omega)]; rfl
    rw [mapPanic_ok _ _ hall]
    congr 1
    refine List.map_congr_left (fun c hc => ?_)
    rw [swap02_of_length (by rw [hlen c hc]; omega)]
    rfl
  refine ⟨fun d pixels hct hb3 hdvd => ?_,
          fun d pixels hct => ?_,
          fun d h1 h2 => ?_⟩
  · rcases hct with hct | hct <;>
    · unfold TGADecoder.reverse_encoding
      rw [hct]
      have hbpp : ¬ d.bytes_per_pixel = 0 := by omega
      simp only [hbpp, if_false]
      rw [main d pixels hb3 hdvd]
  · rcases hct with hct | hct <;> (unfold TGADecoder.reverse_encoding; rw [hct])
  · unfold TGADecoder.reverse_encoding
    rw [h1, h2]
    rfl

/-- C6 witness: the documented concrete swap. -/
theorem claim6_witness :
    TGADecoder.reverse_encoding
      { TGADecoder.new ⟨[], 0⟩ with color_type := .RGB 8, bytes_per_pixel := 3 }
      [1, 2, 3, 4, 5, 6] = .ok [3, 2, 1, 6, 5, 4] :=
  claim6_reverse_encoding.2.2 _ rfl rfl

end TGA
